import Mathlib

/-!
Verification of the Rpom_Exoproteome pipeline scripts.

Each namespace embeds one script of the repository:
* `Stats`     — `scripts/fragpipe/.ipynb_checkpoints/statistics_multipletests-checkpoint.py`
* `FormatRaw` — `scripts/fragpipe/.ipynb_checkpoints/format_raw-checkpoint.py`
* `Annotate`  — `scripts/fragpipe/.ipynb_checkpoints/annotate-checkpoint.py`
* `SigList`   — `scripts/fragpipe/significant_list.py`

Numeric cell values are embedded as `Option ℚ`: `none` stands for a missing
value (NaN, as produced by `pd.to_numeric(..., errors='coerce')` and by the
outer merge), `some q` for the rational value `q`.  Tab-separated lines are
embedded as `List String`, one entry per field.
-/

namespace Stats

/-- A value of a replicate column: `none` is NaN, `some q` a number. -/
abbrev Val := Option ℚ

/-- Number of NaN entries of a triplicate (`sum(math.isnan(v) for v in values)`,
line 141 of `statistics_multipletests-checkpoint.py`). -/
def nan_count (values : List Val) : Nat :=
  values.countP (fun v => v.isNone)

/-- Function `valid_triplicate` (lines 140–142): a triplicate is accepted iff its NaN
count is 0 or 3. -/
def valid_triplicate (values : List Val) : Bool :=
  nan_count values == 0 || nan_count values == 3

/-- Function `is_all_zero` (lines 144–145): `all(v == 0 for v in values)`.  In Python a
NaN compares unequal to `0`, hence `none == some 0` is `false` here. -/
def is_all_zero (values : List Val) : Bool :=
  values.all (fun v => v == some 0)

/-- Function `valid_row` (lines 147–155): drop the row when both triplicate groups are
all zero, otherwise require both triplicates to be valid. -/
def valid_row (group1 group2 : List Val) : Bool :=
  if is_all_zero group1 && is_all_zero group2 then false
  else valid_triplicate group1 && valid_triplicate group2

/-- A merged row: the two triplicate groups of a row of `combined_df` after the
merge (columns `1_{suf_1}..3_{suf_1}` and `1_{suf_2}..3_{suf_2}`). -/
structure MergedRow where
  group1 : List Val
  group2 : List Val
  deriving DecidableEq, Repr

/-- The row filter of line 194:
`combined_df[combined_df.apply(lambda row: valid_row(row, suf_1, suf_2), axis=1)]`. -/
def filter_rows (rows : List MergedRow) : List MergedRow :=
  rows.filter (fun r => valid_row r.group1 r.group2)

/-- Operation `combined_df.fillna(0)` (line 196) on one cell. -/
def fillna (v : Val) : ℚ :=
  v.getD 0

/-- Map `fillna` over both triplicates of a row. -/
def fill_row (r : MergedRow) : List ℚ × List ℚ :=
  (r.group1.map fillna, r.group2.map fillna)

/-- Row mean `mean(axis=1)` over the replicate columns (lines 213 and 216); after
`fillna(0)` no NaN remains, so the mean is the sum over the count. -/
def row_average (values : List ℚ) : ℚ :=
  values.sum / values.length

/-- The literal `10E-15` of lines 76, 78, 94 and 96. -/
def epsilon : ℚ :=
  10 / 10 ^ 15

/-- The zero replacement of `calculate_log2_fold_change` (lines 75–78):
`df[...].replace(0, 10E-15)` applied to one row average. -/
def replace_zero_avg (x : ℚ) : ℚ :=
  if x = 0 then epsilon else x

/-- The argument of `np.log2` on line 79: the ratio of the two row averages
after the zero replacement. -/
def log2fc_ratio (avg1 avg2 : ℚ) : ℚ :=
  replace_zero_avg avg1 / replace_zero_avg avg2

/-- One row of the exported table, as far as the claims need it: the source
row, its filled triplicates, the two row averages, and the ratio whose `log2`
is the `Log2_Fold_Change` column. -/
structure StatRow where
  source : MergedRow
  filled : List ℚ × List ℚ
  avg1 : ℚ
  avg2 : ℚ
  ratio : ℚ
  deriving DecidableEq, Repr

/-- The per-row statistics of lines 212–220, computed on a filled row. -/
def compute_stats (r : MergedRow) : StatRow :=
  let f := fill_row r
  let a1 := row_average f.1
  let a2 := row_average f.2
  ⟨r, f, a1, a2, log2fc_ratio a1 a2⟩

/-- The rows of the exported result table (lines 194–250): statistics are
computed only on the rows that survive `valid_row`, and only those rows are
written out by `to_csv`. -/
def exported_rows (rows : List MergedRow) : List StatRow :=
  (filter_rows rows).map compute_stats

theorem filter_rows_mem {rows : List MergedRow} {r : MergedRow}
    (h : r ∈ filter_rows rows) : valid_row r.group1 r.group2 = true :=
  (List.mem_filter.mp h).2

/-- Claim C1. A merged row whose two triplicate groups are all zero is removed by
the row filter, hence never reaches the statistics and appears in no row of the
exported table; and on any row where at least one group is not all zero the
all-zero rule does not fire: `valid_row` reduces to the triplicate-validity
check alone, so such a row is retained by this rule. -/
theorem allzero_rows_dropped (rows : List MergedRow) (r r' : MergedRow)
    (h1 : is_all_zero r.group1 = true) (h2 : is_all_zero r.group2 = true)
    (hne : (is_all_zero r'.group1 && is_all_zero r'.group2) = false) :
    r ∉ filter_rows rows
      ∧ (∀ s ∈ exported_rows rows, s.source ≠ r)
      ∧ valid_row r'.group1 r'.group2
          = (valid_triplicate r'.group1 && valid_triplicate r'.group2) := by
  have hvr : valid_row r.group1 r.group2 = false := by
    unfold valid_row
    rw [h1, h2]
    simp
  refine ⟨?_, ?_, ?_⟩
  · intro hmem
    have := filter_rows_mem hmem
    rw [hvr] at this
    exact Bool.false_ne_true this
  · intro s hs hsrc
    rcases List.mem_map.mp hs with ⟨r₀, hr₀, hcs⟩
    have hsr : s.source = r₀ := by rw [← hcs]; rfl
    have hr : r ∈ filter_rows rows := by
      have : r = r₀ := by rw [← hsrc, hsr]
      rw [this]; exact hr₀
    have := filter_rows_mem hr
    rw [hvr] at this
    exact Bool.false_ne_true this
  · unfold valid_row
    rw [hne]
    simp

/-- Witness for `allzero_rows_dropped` at a concrete row set. -/
theorem allzero_rows_dropped_witness :
    (⟨[some 0, some 0, some 0], [some 0, some 0, some 0]⟩ : MergedRow)
        ∉ filter_rows [⟨[some 0, some 0, some 0], [some 0, some 0, some 0]⟩,
                       ⟨[some 1, some 2, some 3], [some 4, some 5, some 6]⟩] :=
  (allzero_rows_dropped
      [⟨[some 0, some 0, some 0], [some 0, some 0, some 0]⟩,
       ⟨[some 1, some 2, some 3], [some 4, some 5, some 6]⟩]
      ⟨[some 0, some 0, some 0], [some 0, some 0, some 0]⟩
      ⟨[some 1, some 2, some 3], [some 4, some 5, some 6]⟩
      (by decide) (by decide) (by decide)).1

theorem nanCount_of_allzero {g : List Val} (h : is_all_zero g = true) :
    nan_count g = 0 := by
  rw [nan_count, List.countP_eq_zero]
  intro v hv
  have hv0 : v = some 0 := by simpa using List.all_eq_true.mp h v hv
  simp [hv0]

theorem validrow_false_left {g1 g2 : List Val}
    (hc : nan_count g1 = 1 ∨ nan_count g1 = 2) : valid_row g1 g2 = false := by
  have hz : is_all_zero g1 = false := by
    cases hh : is_all_zero g1
    · rfl
    · have := nanCount_of_allzero hh
      rcases hc with hc | hc <;> omega
  have ht : valid_triplicate g1 = false := by
    rcases hc with hc | hc <;> simp [valid_triplicate, hc]
  unfold valid_row
  rw [hz]
  simp [ht]

theorem validrow_false_right {g1 g2 : List Val}
    (hc : nan_count g2 = 1 ∨ nan_count g2 = 2) : valid_row g1 g2 = false := by
  have hz : is_all_zero g2 = false := by
    cases hh : is_all_zero g2
    · rfl
    · have := nanCount_of_allzero hh
      rcases hc with hc | hc <;> omega
  have ht : valid_triplicate g2 = false := by
    rcases hc with hc | hc <;> simp [valid_triplicate, hc]
  unfold valid_row
  rw [hz]
  simp [ht]

/-- Claim C9. A merged row one of whose triplicates has exactly 1 or exactly 2
NaN entries fails `valid_row` and is dropped; a triplicate passes
`valid_triplicate` exactly when its NaN count is 0 or 3; and in the rows the
pipeline retains, every remaining NaN has been replaced by 0 (`fillna(0)` runs
on the filtered frame before any statistic is computed). -/
theorem partial_nan_rows_dropped (g1 g2 : List Val)
    (h : nan_count g1 = 1 ∨ nan_count g1 = 2 ∨ nan_count g2 = 1 ∨ nan_count g2 = 2) :
    valid_row g1 g2 = false
    ∧ (∀ g : List Val, valid_triplicate g = true ↔ nan_count g = 0 ∨ nan_count g = 3)
    ∧ fillna none = 0
    ∧ (∀ q : ℚ, fillna (some q) = q)
    ∧ (∀ rows s, s ∈ exported_rows rows → s.filled = fill_row s.source) := by
  refine ⟨?_, ?_, rfl, fun _ => rfl, ?_⟩
  · rcases h with h | h | h | h
    · exact validrow_false_left (Or.inl h)
    · exact validrow_false_left (Or.inr h)
    · exact validrow_false_right (Or.inl h)
    · exact validrow_false_right (Or.inr h)
  · intro g
    simp [valid_triplicate]
  · intro rows s hs
    rcases List.mem_map.mp hs with ⟨r₀, _, hcs⟩
    rw [← hcs]
    rfl

/-- Witness for `partial_nan_rows_dropped` at a concrete row. -/
theorem partial_nan_rows_dropped_witness :
    valid_row [some 1, none, some 2] [some 1, some 2, some 3] = false :=
  (partial_nan_rows_dropped [some 1, none, some 2] [some 1, some 2, some 3]
    (by decide)).1

theorem replace_zero_avg_ne_zero (x : ℚ) : replace_zero_avg x ≠ 0 := by
  unfold replace_zero_avg
  split
  · norm_num [epsilon]
  · assumption

/-- Claim C2. The `Log2_Fold_Change` of a retained row is `log2` of the ratio of
the two row averages, each average being the mean of the three replicate
values, with an average of exactly 0 first replaced by the literal `10E-15`
(which equals `1e-14`); the replaced average is never 0, so the log ratio is
never taken of or over an exact zero. -/
theorem log2_fold_change_spec (a b c d e f : ℚ) :
    row_average [a, b, c] = (a + b + c) / 3
    ∧ replace_zero_avg (row_average [a, b, c]) ≠ 0
    ∧ replace_zero_avg (row_average [d, e, f]) ≠ 0
    ∧ log2fc_ratio (row_average [a, b, c]) (row_average [d, e, f])
        = replace_zero_avg (row_average [a, b, c])
            / replace_zero_avg (row_average [d, e, f])
    ∧ epsilon = 1 / 10 ^ 14
    ∧ Real.logb 2 ((log2fc_ratio (row_average [a, b, c]) (row_average [d, e, f]) : ℚ) : ℝ)
        = Real.logb 2 (((replace_zero_avg (row_average [a, b, c]) : ℚ) : ℝ)
            / ((replace_zero_avg (row_average [d, e, f]) : ℚ) : ℝ))
    ∧ (∀ (rows : List MergedRow) (s : StatRow), s ∈ exported_rows rows →
        s.avg1 = row_average s.filled.1 ∧ s.avg2 = row_average s.filled.2
          ∧ s.ratio = log2fc_ratio s.avg1 s.avg2) := by
  refine ⟨?_, replace_zero_avg_ne_zero _, replace_zero_avg_ne_zero _, rfl, ?_, ?_, ?_⟩
  · simp [row_average]
    ring
  · norm_num [epsilon]
  · rw [log2fc_ratio, Rat.cast_div]
  · intro rows s hs
    rcases List.mem_map.mp hs with ⟨r₀, _, hcs⟩
    rw [← hcs]
    exact ⟨rfl, rfl, rfl⟩

/-- Lowercasing of one ASCII character, as Python's `str.lower` does on the
test-name strings used here. -/
def lowerChar (c : Char) : Char :=
  if 65 ≤ c.toNat ∧ c.toNat ≤ 90 then Char.ofNat (c.toNat + 32) else c

/-- Lowercasing `test_name.lower()` (line 56). -/
def lowerStr (s : String) : String :=
  ⟨s.data.map lowerChar⟩

/-- The statistical tests a row can be tested with.  `welch` stands for the
string value `'welch'` of the mapping; the others stand for the scipy
functions `ttest_ind`, `mannwhitneyu`, `wilcoxon`, `kruskal`, `f_oneway`. -/
inductive TestChoice where
  | ttest_ind
  | welch
  | mannwhitneyu
  | wilcoxon
  | kruskal
  | f_oneway
  deriving DecidableEq, Repr

/-- Dictionary `test_mapping` (lines 48–55). -/
def test_mapping : List (String × TestChoice) :=
  [("t-test", .ttest_ind), ("welch", .welch), ("mannwhitneyu", .mannwhitneyu),
   ("wilcoxon", .wilcoxon), ("kruskal", .kruskal), ("f_oneway", .f_oneway)]

/-- Python `dict.get` over an association list built by successive insertion:
the last binding of a key wins. -/
def dict_get {α : Type} (entries : List (String × α)) (k : String) : Option α :=
  (entries.reverse.find? (fun p => p.1 == k)).map (fun p => p.2)

/-- Function `get_test_function` (lines 47–56): look the lowercased name up in
`test_mapping`, defaulting to `ttest_ind`. -/
def get_test_function (test_name : String) : TestChoice :=
  (dict_get test_mapping (lowerStr test_name)).getD .ttest_ind

/-- List `valid_methods` (line 121). -/
def valid_methods : List String :=
  ["bonferroni", "holm", "sidak", "fdr_bh", "fdr_by"]

/-- Function `multiple_testing_correction` (lines 117–138), abstracting the library
routine `multipletests` as the parameter `correct` and dropping the
`-log10` companion array.  The returned Bool records whether the invalid-method
warning was printed: for `"None"` the raw p-values come back silently, for a
valid method the corrected p-values come back, and for anything else the raw
p-values come back after the warning. -/
def multiple_testing_correction (correct : List ℚ → String → List ℚ)
    (p_values : List ℚ) (method : String) : List ℚ × Bool :=
  if method = "None" then (p_values, false)
  else if method ∈ valid_methods then (correct p_values method, false)
  else (p_values, true)

/-- Counterexample to C4 as stated. `'KRUSKAL'` is not a key of `test_mapping`, yet
`get_test_function` returns `kruskal`, not the default `ttest_ind`: the claim's
universal statement over strings not in the mapping fails, because the lookup
happens after lowercasing. -/
theorem get_test_function_counterexample :
    "KRUSKAL" ∉ test_mapping.map Prod.fst
    ∧ get_test_function "KRUSKAL" = TestChoice.kruskal
    ∧ TestChoice.kruskal ≠ TestChoice.ttest_ind := by
  refine ⟨by decide, ?_, by decide⟩
  decide

/-- Claim C4, amended. For every correction-method string outside the valid set
and different from `'None'`, `multiple_testing_correction` warns and returns
the raw p-values uncorrected; and for every test-name string whose lowercased
form is not a key of `test_mapping`, `get_test_function` returns the default
`ttest_ind`. -/
theorem invalid_choices_fall_back (correct : List ℚ → String → List ℚ)
    (p_values : List ℚ) (method s : String)
    (hm1 : method ∉ valid_methods) (hm2 : method ≠ "None")
    (hs : lowerStr s ∉ test_mapping.map Prod.fst) :
    multiple_testing_correction correct p_values method = (p_values, true)
    ∧ get_test_function s = TestChoice.ttest_ind := by
  constructor
  · unfold multiple_testing_correction
    rw [if_neg hm2, if_neg hm1]
  · unfold get_test_function
    have : dict_get test_mapping (lowerStr s) = none := by
      unfold dict_get
      rw [List.find?_eq_none.mpr]
      · rfl
      · intro p hp hbeq
        apply hs
        have : p.1 = lowerStr s := by simpa using hbeq
        exact this ▸ List.mem_map_of_mem Prod.fst (List.mem_reverse.mp hp)
    rw [this]
    rfl

/-- Witness for `invalid_choices_fall_back` at concrete invalid choices. -/
theorem invalid_choices_fall_back_witness :
    multiple_testing_correction (fun p _ => p) [1, 2] "bogus" = ([1, 2], true)
    ∧ get_test_function "Bogus" = TestChoice.ttest_ind :=
  invalid_choices_fall_back (fun p _ => p) [1, 2] "bogus" "Bogus"
    (by decide) (by decide) (by decide)

/-- The column names of `combined_df` just before the p-value block, for
suffixes `s1`, `s2`: the two input frames carry columns `Accession Number`,
`Annotation`, and the renamed replicates `1_suf..3_suf` (lines 184–187); the
outer merge on `Accession Number` suffixes the overlapping `Annotation`
column (line 61); then `Present_Only_In` (line 209), the averages and
standard deviations (lines 212–217) and `Log2_Fold_Change` (line 220) are
appended in that order. -/
def combined_columns (s1 s2 : String) : List String :=
  ["Accession Number", "Annotation" ++ s1,
   "1_" ++ s1, "2_" ++ s1, "3_" ++ s1,
   "Annotation" ++ s2, "1_" ++ s2, "2_" ++ s2, "3_" ++ s2,
   "Present_Only_In",
   "Row_Average_" ++ s1, "STD_" ++ s1, "Row_Average_" ++ s2, "STD_" ++ s2,
   "Log2_Fold_Change"]

/-- Assigning a dataframe column: replaces an existing column, else appends. -/
def add_col (cols : List String) (c : String) : List String :=
  if c ∈ cols then cols else cols ++ [c]

/-- Reading a dataframe column: a missing name raises a `KeyError`. -/
def get_col (cols : List String) (c : String) : Except String Unit :=
  if c ∈ cols then .ok () else .error ("KeyError: " ++ c)

/-- The p-value block of `process_files` at the column level (lines 224–243):
both branches assign `Adj_P_Values` and `-log10(Adj_P_Values)`; then for a
correction method the code reads `Adj_P_Values` and assigns
`Log10_Adj_P_Values`, while for `'None'` it reads the column `P_Values` —
which no earlier line ever created — and would assign `Log10_P_Values`. -/
def pvalue_stage (method : String) (cols : List String) :
    Except String (List String) :=
  let cols1 := add_col (add_col cols "Adj_P_Values") "-log10(Adj_P_Values)"
  if method ≠ "None" then
    match get_col cols1 "Adj_P_Values" with
    | .ok _ => .ok (add_col cols1 "Log10_Adj_P_Values")
    | .error e => .error e
  else
    match get_col cols1 "P_Values" with
    | .ok _ => .ok (add_col cols1 "Log10_P_Values")
    | .error e => .error e

/-- Claim C3, refuted by the code (code bug). Running the statistics stage with correction method
`'None'` — the documented default — does not complete: after correctly
assigning `Adj_P_Values` and `-log10(Adj_P_Values)` from the raw p-values, the
stage reads the nonexistent column `P_Values` and dies with a `KeyError`
before `to_csv`, so no result table is exported.  Evaluated here on the
column set of a concrete run (suffixes `EXP` and `STAT`). -/
theorem pvalue_stage_none_keyerror :
    pvalue_stage "None" (combined_columns "EXP" "STAT")
      = Except.error "KeyError: P_Values" := by
  rfl

end Stats

namespace FormatRaw

/-- Python's `<=` on strings, by code points, on the underlying character
lists. -/
def lexLe : List Char → List Char → Bool
  | [], _ => true
  | _ :: _, [] => false
  | a :: as, b :: bs =>
    if a.toNat < b.toNat then true
    else if b.toNat < a.toNat then false
    else lexLe as bs

/-- Python string comparison used by `sorted` (ascending, lexicographic on
code points). -/
def strLe (a b : String) : Bool :=
  lexLe a.data b.data

theorem lexLe_trans : ∀ a b c : List Char,
    lexLe a b = true → lexLe b c = true → lexLe a c = true
  | [], _, _, _, _ => rfl
  | _ :: _, [], _, h1, _ => by simp [lexLe] at h1
  | _ :: _, _ :: _, [], _, h2 => by simp [lexLe] at h2
  | x :: xs, y :: ys, z :: zs, h1, h2 => by
    by_cases hxy : x.toNat < y.toNat
    · by_cases hyz : y.toNat < z.toNat
      · simp [lexLe, show x.toNat < z.toNat by omega]
      · by_cases hzy : z.toNat < y.toNat
        · simp [lexLe, hyz, hzy] at h2
        · simp [lexLe, show x.toNat < z.toNat by omega]
    · by_cases hyx : y.toNat < x.toNat
      · simp [lexLe, hxy, hyx] at h1
      · have hxs : lexLe xs ys = true := by simpa [lexLe, hxy, hyx] using h1
        by_cases hyz : y.toNat < z.toNat
        · simp [lexLe, show x.toNat < z.toNat by omega]
        · by_cases hzy : z.toNat < y.toNat
          · simp [lexLe, hyz, hzy] at h2
          · have hys : lexLe ys zs = true := by simpa [lexLe, hyz, hzy] using h2
            simp [lexLe, show ¬x.toNat < z.toNat by omega,
              show ¬z.toNat < x.toNat by omega, lexLe_trans xs ys zs hxs hys]

theorem lexLe_total : ∀ a b : List Char, (lexLe a b || lexLe b a) = true
  | [], _ => by simp [lexLe]
  | _ :: _, [] => by simp [lexLe]
  | x :: xs, y :: ys => by
    by_cases hxy : x.toNat < y.toNat
    · simp [lexLe, hxy]
    · by_cases hyx : y.toNat < x.toNat
      · simp [lexLe, hxy, hyx]
      · simpa [lexLe, hxy, hyx] using lexLe_total xs ys

/-- List `selected_columns` (line 23 of `format_raw-checkpoint.py`). -/
def selected_columns : List Nat :=
  [0, 1, 5, 6, 7]

/-- The header renaming of lines 37–42, applied once the header has exactly
8 columns. -/
def rename_header (h : List String) : List String :=
  ((((h.set 0 "Accession Number").set 1 "Annotation").set 5 "1").set 6 "2").set 7 "3"

/-- The column selection of lines 56–62: for each selected index take the
field when the row is long enough, else the empty string. -/
def select_fields (cols : List String) : List String :=
  selected_columns.map (fun idx => if idx < cols.length then cols.getD idx "" else "")

/-- The sort key of line 67: the first tab-separated field of the line. -/
def sort_key (line : List String) : String :=
  line.getD 0 ""

/-- The comparison `sorted` uses on line 67: ascending by `sort_key`. -/
def le_by_key (a b : List String) : Bool :=
  strLe (sort_key a) (sort_key b)

/-- Function `format_proteomefiles` on a single file (lines 30–73), with each line
already split at tabs: require an 8-column header, rename it, select the five
columns of every line, sort the data rows by their first field, and emit
header plus sorted rows; a file whose header is not 8 columns wide is skipped
(`none`), and no output file is written. -/
def format_one (lines : List (List String)) : Option (List (List String)) :=
  match lines with
  | [] => none
  | header :: rows =>
    if header.length = 8 then
      some (select_fields (rename_header header)
        :: (rows.map select_fields).mergeSort le_by_key)
    else none

theorem select_fields_length (r : List String) : (select_fields r).length = 5 := by
  simp [select_fields, selected_columns]

theorem select_guard (r : List String) (i : Nat) :
    (if i < r.length then r.getD i "" else "") = r.getD i "" := by
  split
  · rfl
  · rw [List.getD_eq_default]
    omega

theorem length_eight_cases {α : Type} (l : List α) (hl : l.length = 8) :
    ∃ a b c d e f g h, l = [a, b, c, d, e, f, g, h] := by
  rcases l with _ | ⟨a, l⟩; · simp at hl
  rcases l with _ | ⟨b, l⟩; · simp at hl
  rcases l with _ | ⟨c, l⟩; · simp at hl
  rcases l with _ | ⟨d, l⟩; · simp at hl
  rcases l with _ | ⟨e, l⟩; · simp at hl
  rcases l with _ | ⟨f, l⟩; · simp at hl
  rcases l with _ | ⟨g, l⟩; · simp at hl
  rcases l with _ | ⟨h, l⟩; · simp at hl
  rcases l with _ | ⟨i, l⟩
  · exact ⟨a, b, c, d, e, f, g, h, rfl⟩
  · simp at hl

theorem header_out_of_eight {header : List String} (h8 : header.length = 8) :
    select_fields (rename_header header)
      = ["Accession Number", "Annotation", "1", "2", "3"] := by
  obtain ⟨a, b, c, d, e, f, g, h, rfl⟩ := length_eight_cases header h8
  rfl

/-- Counterexample to C6 as stated. On a file whose 8-column header is
`A … H`, the output header is not made of the input columns at indices
0, 1, 5, 6, 7 (`A, B, F, G, H`): those positions were first overwritten with
the fixed labels `Accession Number, Annotation, 1, 2, 3`. -/
theorem format_header_counterexample :
    format_one [["A", "B", "C", "D", "E", "F", "G", "H"],
                ["a", "b", "c", "d", "e", "f", "g", "h"]]
      = some [["Accession Number", "Annotation", "1", "2", "3"],
              ["a", "b", "f", "g", "h"]]
    ∧ ["Accession Number", "Annotation", "1", "2", "3"]
        ≠ ["A", "B", "F", "G", "H"] := by
  constructor
  · rw [format_one]
    rw [if_pos (by decide)]
    rw [List.map_cons, List.map_nil, List.mergeSort_singleton]
    rfl
  · decide

/-- Claim C6, amended. For a file whose header has exactly 8 columns, every
output line has exactly 5 tab-separated fields; the header line consists of
the fixed renamed labels `Accession Number, Annotation, 1, 2, 3`; every data
row contributes the fields at input indices 0, 1, 5, 6, 7 (the empty string
standing in when the row is shorter); and a file whose header does not have
exactly 8 columns is skipped, with no output written. -/
theorem format_output_shape (header header' : List String)
    (rows rows' out : List (List String))
    (hout : format_one (header :: rows) = some out)
    (h8' : header'.length ≠ 8) :
    (∀ l ∈ out, l.length = 5)
    ∧ out.head? = some ["Accession Number", "Annotation", "1", "2", "3"]
    ∧ (∀ r : List String, select_fields r
        = [r.getD 0 "", r.getD 1 "", r.getD 5 "", r.getD 6 "", r.getD 7 ""])
    ∧ (∀ r ∈ rows, select_fields r ∈ out.tail)
    ∧ format_one (header' :: rows') = none := by
  rw [format_one] at hout
  by_cases h8 : header.length = 8
  swap
  · rw [if_neg h8] at hout; exact absurd hout (by simp)
  rw [if_pos h8] at hout
  have hout' : out = select_fields (rename_header header)
      :: (rows.map select_fields).mergeSort le_by_key := by
    exact (Option.some_injective _ hout).symm
  have hperm := List.mergeSort_perm (rows.map select_fields) le_by_key
  refine ⟨?_, ?_, ?_, ?_, ?_⟩
  · intro l hl
    rw [hout'] at hl
    rcases List.mem_cons.mp hl with hl | hl
    · rw [hl, header_out_of_eight h8]
      rfl
    · have : l ∈ rows.map select_fields := hperm.mem_iff.mp hl
      rcases List.mem_map.mp this with ⟨r, _, rfl⟩
      exact select_fields_length r
  · rw [hout', header_out_of_eight h8]
    rfl
  · intro r
    simp only [select_fields, selected_columns, List.map_cons, List.map_nil,
      select_guard]
  · intro r hr
    rw [hout']
    exact hperm.mem_iff.mpr (List.mem_map_of_mem select_fields hr)
  · rw [format_one, if_neg h8']

/-- Witness for `format_output_shape` at a concrete file pair. -/
theorem format_output_shape_witness :
    (∀ l ∈ [["Accession Number", "Annotation", "1", "2", "3"]], l.length = 5)
    ∧ format_one [["too", "short"]] = none :=
  have h := format_output_shape ["A", "B", "C", "D", "E", "F", "G", "H"]
    ["too", "short"] [] [] [["Accession Number", "Annotation", "1", "2", "3"]]
    (by rw [format_one, if_pos (by decide)]
        rw [List.map_nil, List.mergeSort_nil]
        rfl)
    (by decide)
  ⟨h.1, h.2.2.2.2⟩

/-- Claim C8. For every successfully formatted file, the output is the header
followed by the data rows sorted ascending by their first field (the
accession), and sorting only permutes: the multiset of output data rows equals
the multiset of the reformatted input data rows. -/
theorem format_rows_sorted (header : List String) (rows out : List (List String))
    (hout : format_one (header :: rows) = some out) :
    out.head? = some (select_fields (rename_header header))
    ∧ List.Sorted (fun a b => le_by_key a b = true) out.tail
    ∧ (out.tail : Multiset (List String)) = ↑(rows.map select_fields) := by
  rw [format_one] at hout
  by_cases h8 : header.length = 8
  swap
  · rw [if_neg h8] at hout; exact absurd hout (by simp)
  rw [if_pos h8] at hout
  have hout' : out = select_fields (rename_header header)
      :: (rows.map select_fields).mergeSort le_by_key :=
    (Option.some_injective _ hout).symm
  refine ⟨by rw [hout']; rfl, ?_, ?_⟩
  · rw [hout']
    show List.Sorted (fun a b => le_by_key a b = true)
      ((rows.map select_fields).mergeSort le_by_key)
    exact @List.sorted_mergeSort _ le_by_key
      (fun a b c hab hbc => lexLe_trans _ _ _ hab hbc)
      (fun a b => lexLe_total _ _)
      (rows.map select_fields)
  · rw [hout']
    exact Multiset.coe_eq_coe.mpr (List.mergeSort_perm _ _)

/-- Witness for `format_rows_sorted` at a concrete file. -/
theorem format_rows_sorted_witness :
    ([["a", "b", "f", "g", "h"]] : Multiset (List String))
      = ↑([["a", "b", "c", "d", "e", "f", "g", "h"]].map select_fields) :=
  (format_rows_sorted ["A", "B", "C", "D", "E", "F", "G", "H"]
    [["a", "b", "c", "d", "e", "f", "g", "h"]]
    [["Accession Number", "Annotation", "1", "2", "3"], ["a", "b", "f", "g", "h"]]
    (by rw [format_one, if_pos (by decide)]
        rw [List.map_cons, List.map_nil, List.mergeSort_singleton]
        rfl)).2.2

end FormatRaw

namespace Annotate

/-- Lookup `SPO_dict.get spo_id` (line 42 of `annotate-checkpoint.py`), over the
dictionary built on lines 17–20 from the two-column annotation file: entries
are inserted line by line and a later binding of the same accession key
overwrites an earlier one, so lookup takes the last matching entry. -/
def dict_get (entries : List (String × String)) (k : String) : Option String :=
  (entries.reverse.find? (fun p => p.1 == k)).map (fun p => p.2)

/-- The per-row replacement of lines 38–43, total version:
`columns[1] = SPO_dict.get(columns[0], 'Unknown')`. -/
def annotate_row_fn (entries : List (String × String)) (cols : List String) :
    List String :=
  cols.set 1 ((dict_get entries (cols.getD 0 "")).getD "Unknown")

/-- The per-row replacement as executed: assigning `columns[1]` requires the
row to have at least two fields, otherwise Python raises an `IndexError`. -/
def annotate_row (entries : List (String × String)) (cols : List String) :
    Option (List String) :=
  if 2 ≤ cols.length then some (annotate_row_fn entries cols) else none

/-- Function `annotate` on a single file (lines 30–47), lines already split at tabs:
the header line is copied through unchanged, every data row gets its second
field replaced. -/
def annotate_file (entries : List (String × String))
    (lines : List (List String)) : Option (List (List String)) :=
  match lines with
  | [] => none
  | header :: rows => (rows.mapM (annotate_row entries)).map (header :: ·)

theorem annotate_file_total (entries : List (String × String))
    (header : List String) (rows : List (List String))
    (hr : ∀ r ∈ rows, 2 ≤ r.length) :
    annotate_file entries (header :: rows)
      = some (header :: rows.map (annotate_row_fn entries)) := by
  have : rows.mapM (annotate_row entries)
      = some (rows.map (annotate_row_fn entries)) := by
    induction rows with
    | nil => rfl
    | cons r rs ih =>
      have h2 : 2 ≤ r.length := hr r (List.mem_cons_self r rs)
      have ihs : rs.mapM (annotate_row entries)
          = some (rs.map (annotate_row_fn entries)) :=
        ih (fun x hx => hr x (List.mem_cons_of_mem r hx))
      rw [List.mapM_cons, ihs]
      simp [annotate_row, h2]
  rw [annotate_file, this]
  rfl

/-- Claim C7. The annotator applies the accession→annotation dictionary to
column 2 of every data row: whenever the row's first field is a key of the
dictionary, the output row is the input row with its second field set to the
dictionary's annotation for that accession; the header line is copied through
without any lookup. -/
theorem annotate_applies_dict (entries : List (String × String))
    (header : List String) (rows out : List (List String))
    (cols : List String) (ann : String)
    (hout : annotate_file entries (header :: rows) = some out)
    (hk : dict_get entries (cols.getD 0 "") = some ann)
    (hlen : 2 ≤ cols.length) :
    out.head? = some header
    ∧ annotate_row entries cols = some (cols.set 1 ann) := by
  constructor
  · rw [annotate_file] at hout
    rcases ho : rows.mapM (annotate_row entries) with _ | rows'
    · rw [ho] at hout
      exact absurd hout (by simp)
    · rw [ho] at hout
      have : header :: rows' = out := Option.some_injective _ hout
      rw [← this]
      rfl
  · rw [annotate_row, if_pos hlen, annotate_row_fn, hk]
    rfl

/-- Witness for `annotate_applies_dict` on a concrete file and dictionary. -/
theorem annotate_applies_dict_witness :
    annotate_row [("SPO0001", "ribosomal protein")]
        ["SPO0001", "SPO0001", "1.5", "2.5", "3.5"]
      = some ["SPO0001", "ribosomal protein", "1.5", "2.5", "3.5"] :=
  (annotate_applies_dict [("SPO0001", "ribosomal protein")]
    ["Accession Number", "Annotation", "1", "2", "3"]
    [] [["Accession Number", "Annotation", "1", "2", "3"]]
    ["SPO0001", "SPO0001", "1.5", "2.5", "3.5"] "ribosomal protein"
    (by rfl) (by rfl) (by decide)).2

/-- Claim C10. Annotation only touches column 2: an accession absent from the
dictionary yields the literal `Unknown` there; every other field of the row is
written out unchanged, and the file comes out as the unchanged header followed
by exactly one output row per input row, in order. -/
theorem annotate_frame (entries : List (String × String))
    (header : List String) (rows : List (List String))
    (hr : ∀ r ∈ rows, 2 ≤ r.length) :
    annotate_file entries (header :: rows)
      = some (header :: rows.map (annotate_row_fn entries))
    ∧ (rows.map (annotate_row_fn entries)).length = rows.length
    ∧ ∀ r ∈ rows,
        (annotate_row_fn entries r).length = r.length
        ∧ (∀ i, i ≠ 1 → (annotate_row_fn entries r).get? i = r.get? i)
        ∧ (dict_get entries (r.getD 0 "") = none →
            (annotate_row_fn entries r).get? 1 = some "Unknown") := by
  refine ⟨annotate_file_total entries header rows hr, List.length_map _ _, ?_⟩
  intro r hrm
  refine ⟨List.length_set _ _ _, ?_, ?_⟩
  · intro i hi
    rw [annotate_row_fn]
    rw [List.get?_eq_getElem?, List.get?_eq_getElem?, List.getElem?_set_ne]
    omega
  · intro hnone
    rw [annotate_row_fn, hnone]
    have h2 : 2 ≤ r.length := hr r hrm
    rw [List.get?_eq_getElem?, List.getElem?_set_self]
    · rfl
    · omega

/-- Witness for `annotate_frame` on a concrete file with an unknown key. -/
theorem annotate_frame_witness :
    annotate_file [("SPO0001", "ribosomal protein")]
        [["Accession Number", "Annotation", "1", "2", "3"],
         ["SPO9999", "SPO9999", "1", "2", "3"]]
      = some [["Accession Number", "Annotation", "1", "2", "3"],
              ["SPO9999", "Unknown", "1", "2", "3"]] :=
  (annotate_frame [("SPO0001", "ribosomal protein")]
    ["Accession Number", "Annotation", "1", "2", "3"]
    [["SPO9999", "SPO9999", "1", "2", "3"]]
    (by decide)).1

end Annotate

namespace SigList

/-- Substring containment on the underlying character lists, as Python's
`in` on strings: some contiguous slice of `s` equals `pat`. -/
def infix_of (pat : List Char) : List Char → Bool
  | [] => pat.isEmpty
  | c :: rest => pat.isPrefixOf (c :: rest) || infix_of pat rest

/-- Test `"Only_" in cond` (lines 30 and 34 of `significant_list.py`). -/
def contains_only (cond : String) : Bool :=
  infix_of "Only_".data cond.data

/-- One input row of the significance extractor: log2 fold change (input
column 14), transformed p-value (column 17), annotation (column 1), accession
(column 0) and presence condition (column 9). -/
structure SigRow where
  log2_fc : ℚ
  pval : ℚ
  ann : String
  acc : String
  cond : String
  deriving DecidableEq, Repr

/-- What one loop iteration (lines 21–84) appends for a row: the entry added
to the overexpressed list `sign_plus`, to the underexpressed list
`sign_minus`, and to the two zero-condition lists `sign_plus_zero` and
`sign_minus_zero` (`none` when the branch appends `None` or nothing). -/
structure Contribution where
  over : Option String
  under : Option String
  zeroOver : Option String
  zeroUnder : Option String
  deriving DecidableEq, Repr

/-- The branch structure of lines 29–84: everything is guarded by
`pval > 2`; the two zero-condition appends fire for rows whose condition
contains `Only_` and whose fold change is positive (resp. negative); the
standard lists receive the annotation for `log2_fc > 2` (resp., failing that,
`log2_fc < -2`) and padding `None` otherwise. -/
def row_contribution (r : SigRow) : Contribution :=
  if r.pval > 2 then
    let zo := if contains_only r.cond = true ∧ r.log2_fc > 0 then some r.ann else none
    let zu := if contains_only r.cond = true ∧ r.log2_fc < 0 then some r.ann else none
    if r.log2_fc > 2 then ⟨some r.ann, none, zo, zu⟩
    else if r.log2_fc < -2 then ⟨none, some r.ann, zo, zu⟩
    else ⟨none, none, zo, zu⟩
  else ⟨none, none, none, none⟩

/-- A row contributes an entry to the written summary table iff any of its
four appended entries is an annotation rather than padding: `dropna(how=
'all')` (line 110) removes exactly the all-`None` rows, so a row with some
entry is present in the file. -/
def contributes (r : SigRow) : Bool :=
  (row_contribution r).over.isSome || (row_contribution r).under.isSome
    || (row_contribution r).zeroOver.isSome || (row_contribution r).zeroUnder.isSome

/-- Counterexample to C5 as stated. A row with condition `Only_EXP`, fold change 1 and
transformed p-value 3 meets neither threshold condition (`fc > 2` fails and
`fc < -2` fails), yet it contributes an entry to the summary: the
zero-condition overexpressed column lists its annotation. -/
theorem significant_extremes_counterexample :
    (row_contribution ⟨1, 3, "protA", "SPO1", "Only_EXP"⟩).over = none
    ∧ (row_contribution ⟨1, 3, "protA", "SPO1", "Only_EXP"⟩).under = none
    ∧ ¬((3 : ℚ) > 2 ∧ (1 : ℚ) > 2)
    ∧ ¬((3 : ℚ) > 2 ∧ (1 : ℚ) < -2)
    ∧ (row_contribution ⟨1, 3, "protA", "SPO1", "Only_EXP"⟩).zeroOver
        = some "protA"
    ∧ contributes ⟨1, 3, "protA", "SPO1", "Only_EXP"⟩ = true := by
  refine ⟨?_, ?_, by norm_num, by norm_num, ?_, ?_⟩ <;> decide

theorem over_iff (r : SigRow) :
    (row_contribution r).over = some r.ann ↔ r.pval > 2 ∧ r.log2_fc > 2 := by
  rcases r with ⟨fc, pv, ann, acc, cond⟩
  simp only [row_contribution]
  split_ifs <;> simp_all

theorem under_iff (r : SigRow) :
    (row_contribution r).under = some r.ann ↔ r.pval > 2 ∧ r.log2_fc < -2 := by
  rcases r with ⟨fc, pv, ann, acc, cond⟩
  simp only [row_contribution]
  split_ifs <;> simp_all <;> first | tauto | linarith

theorem zeroOver_iff (r : SigRow) :
    (row_contribution r).zeroOver = some r.ann
      ↔ r.pval > 2 ∧ contains_only r.cond = true ∧ r.log2_fc > 0 := by
  rcases r with ⟨fc, pv, ann, acc, cond⟩
  simp only [row_contribution]
  split_ifs <;> simp_all

theorem zeroUnder_iff (r : SigRow) :
    (row_contribution r).zeroUnder = some r.ann
      ↔ r.pval > 2 ∧ contains_only r.cond = true ∧ r.log2_fc < 0 := by
  rcases r with ⟨fc, pv, ann, acc, cond⟩
  simp only [row_contribution]
  split_ifs <;> simp_all

theorem contribution_some_or_none (r : SigRow) :
    ((row_contribution r).over = some r.ann ∨ (row_contribution r).over = none)
    ∧ ((row_contribution r).under = some r.ann ∨ (row_contribution r).under = none)
    ∧ ((row_contribution r).zeroOver = some r.ann
        ∨ (row_contribution r).zeroOver = none)
    ∧ ((row_contribution r).zeroUnder = some r.ann
        ∨ (row_contribution r).zeroUnder = none) := by
  simp only [row_contribution]
  split_ifs <;> simp

set_option maxHeartbeats 1000000 in
theorem contributes_iff (r : SigRow) :
    contributes r = false
      ↔ ¬(r.pval > 2 ∧ (r.log2_fc > 2 ∨ r.log2_fc < -2
          ∨ (contains_only r.cond = true ∧ (r.log2_fc > 0 ∨ r.log2_fc < 0)))) := by
  obtain ⟨h1, h2, h3, h4⟩ := contribution_some_or_none r
  have hbool : contributes r = true
      ↔ ((row_contribution r).over = some r.ann
          ∨ (row_contribution r).under = some r.ann
          ∨ (row_contribution r).zeroOver = some r.ann
          ∨ (row_contribution r).zeroUnder = some r.ann) := by
    rw [contributes]
    rcases h1 with h1 | h1 <;> rcases h2 with h2 | h2 <;> rcases h3 with h3 | h3
      <;> rcases h4 with h4 | h4 <;> rw [h1, h2, h3, h4] <;> simp
  have hfalse : contributes r = false ↔ ¬(contributes r = true) := by
    cases hcb : contributes r <;> simp
  rw [hfalse, hbool, over_iff, under_iff, zeroOver_iff, zeroUnder_iff]
  apply not_congr
  constructor
  · rintro (⟨hp, hx⟩ | ⟨hp, hy⟩ | ⟨hp, hc, hu⟩ | ⟨hp, hc, hv⟩)
    · exact ⟨hp, Or.inl hx⟩
    · exact ⟨hp, Or.inr (Or.inl hy)⟩
    · exact ⟨hp, Or.inr (Or.inr ⟨hc, Or.inl hu⟩)⟩
    · exact ⟨hp, Or.inr (Or.inr ⟨hc, Or.inr hv⟩)⟩
  · rintro ⟨hp, hx | hy | ⟨hc, hu | hv⟩⟩
    · exact Or.inl ⟨hp, hx⟩
    · exact Or.inr (Or.inl ⟨hp, hy⟩)
    · exact Or.inr (Or.inr (Or.inl ⟨hp, hc, hu⟩))
    · exact Or.inr (Or.inr (Or.inr ⟨hp, hc, hv⟩))

/-- Claim C5, amended. A row is listed as overexpressed exactly when its
transformed p-value exceeds 2 and its log2 fold change exceeds 2, and as
underexpressed exactly when the p-value exceeds 2 and the fold change is below
−2 (both strict); in addition, a row whose condition contains `Only_` and
whose p-value exceeds 2 is listed in the zero-condition overexpressed
(resp. underexpressed) column when its fold change is positive (resp.
negative); a row matching none of these contributes no entry to the summary
table. -/
theorem significant_list_classification (r : SigRow) :
    ((row_contribution r).over = some r.ann ↔ r.pval > 2 ∧ r.log2_fc > 2)
    ∧ ((row_contribution r).under = some r.ann ↔ r.pval > 2 ∧ r.log2_fc < -2)
    ∧ ((row_contribution r).zeroOver = some r.ann
        ↔ r.pval > 2 ∧ contains_only r.cond = true ∧ r.log2_fc > 0)
    ∧ ((row_contribution r).zeroUnder = some r.ann
        ↔ r.pval > 2 ∧ contains_only r.cond = true ∧ r.log2_fc < 0)
    ∧ (contributes r = false
        ↔ ¬(r.pval > 2 ∧ (r.log2_fc > 2 ∨ r.log2_fc < -2
            ∨ (contains_only r.cond = true ∧ (r.log2_fc > 0 ∨ r.log2_fc < 0))))) :=
  ⟨over_iff r, under_iff r, zeroOver_iff r, zeroUnder_iff r, contributes_iff r⟩

end SigList
